import Mathlib

/-!
Verification of the vim-mdpreview rendering pipeline.

This file gives a shallow embedding, in Lean, of the core of the
markdown-preview server: the wiki-link / file-inclusion processor
(`server/wikilinks.py`), the LaTeX tag post-processor
(`server/latex_processor.py`), the caching markdown converter
(`server/markdown_processor.py`, with the third-party conversion backend
abstracted as a function parameter), and the debounce/broadcast
coordinator (`server/preview_server.py`).

The regex substitutions of the Python code are embedded as executable
left-to-right scanners over `List Char`.  Each scanner mirrors one
concrete pattern: at every position it attempts the pattern match
(deterministically — for these patterns the greedy character classes
exclude the delimiter that follows them, so the regex engine never
backtracks into a successful prefix), replaces on success and continues
after the match, or advances one character on failure, exactly as
`re.sub` does (replacement text is never rescanned).

The filesystem is modelled as a finite association list from path
strings to (mtime, content) pairs; Python dictionaries (which preserve
insertion order, update values in place, and evict oldest-first via
slicing in this code base) are modelled as association lists with the
same discipline.  The md5 content hash of the document cache is
modelled by its preimage string, i.e. md5 is treated as injective.
-/

namespace MdPreview

/-! ## Python string helpers -/

/-- Whitespace characters recognised by Python `str.strip()` (ASCII range,
which is all that the processed patterns can produce). -/
def pyWs (c : Char) : Bool :=
  c = ' ' || c = '\t' || c = '\n' || c = '\r' || c = '\x0b' || c = '\x0c'

/-- Python `str.strip()` on a character list. -/
def pyStripL (l : List Char) : List Char :=
  ((l.dropWhile pyWs).reverse.dropWhile pyWs).reverse

/-- Python `str.strip()`. -/
def pyStrip (s : String) : String :=
  String.mk (pyStripL s.data)

/-- Match a literal character-list prefix; on success return the remainder. -/
def dropPre : List Char → List Char → Option (List Char)
  | [], l => some l
  | _ :: _, [] => none
  | p :: ps, c :: cs => if p = c then dropPre ps cs else none

/-- Negated one-character class, e.g. `[^<]` . -/
def notCh (a c : Char) : Bool := !(c = a)

/-- Negated two-character class, e.g. `[^]|]` . -/
def notCh2 (a b c : Char) : Bool := !(c = a || c = b)

/-! ## Generic `re.sub` scanner

`reSubAux m fuel l` scans `l` left to right.  `m` is the compiled
pattern: on the current suffix it returns `some (replacement, rest)`
for a match consuming at least one character, or `none`.  The fuel is
initialised to the length of the input, which bounds the number of
scanning steps since every step consumes at least one input character. -/

def reSubAux (m : List Char → Option (List Char × List Char)) :
    Nat → List Char → List Char
  | 0, l => l
  | _ + 1, [] => []
  | n + 1, c :: cs =>
    match m (c :: cs) with
    | some (r, rest) => r ++ reSubAux m n rest
    | none => c :: reSubAux m n cs

/-- Python `re.sub(pattern, repl, s)` for the patterns in this code base. -/
def reSub (m : List Char → Option (List Char × List Char)) (s : String) : String :=
  String.mk (reSubAux m s.data.length s.data)

/-! ## Filesystem and dictionary models -/

/-- A filesystem snapshot: regular files only, path ↦ (mtime, content). -/
abbrev FS := List (String × Nat × String)

/-- Stat/lookup of a path in the filesystem snapshot. -/
def fsLookup : FS → String → Option (Nat × String)
  | [], _ => none
  | (q, v) :: rest, p => if q = p then some v else fsLookup rest p

/-- Ordered-dictionary lookup (Python `d[k]` / `k in d`). -/
def dictLookup {α : Type} : List (String × α) → String → Option α
  | [], _ => none
  | (q, v) :: rest, p => if q = p then some v else dictLookup rest p

/-- Ordered-dictionary insertion: an existing key keeps its position and
gets the new value; a fresh key is appended (Python `d[k] = v`). -/
def dictInsert {α : Type} : List (String × α) → String → α → List (String × α)
  | [], p, v => [(p, v)]
  | (q, w) :: rest, p, v =>
    if q = p then (q, v) :: rest else (q, w) :: dictInsert rest p v

/-- Oldest-first eviction down to `cap` entries: Python
`if len(d) > cap: del d[k] for k in list(d)[:-cap]`. -/
def trimCache {α : Type} (cap : Nat) (d : List (String × α)) : List (String × α) :=
  if d.length > cap then d.drop (d.length - cap) else d

/-! ## WikiLinkProcessor (`server/wikilinks.py`) -/

/-- Mutable state of a `WikiLinkProcessor`: the per-render inclusion guard
set `included_files`, the mtime-keyed file content cache `_file_cache`,
and the two cache counters. -/
structure WState where
  includedFiles : List String
  fileCache : List (String × Nat × String)
  cacheHits : Nat
  cacheMisses : Nat
deriving DecidableEq

/-- A fresh `WikiLinkProcessor` state. -/
def initW : WState := ⟨[], [], 0, 0⟩

/-- Path join `base_path / (target + ext)`. -/
def joinPath (base target ext : String) : String :=
  base ++ "/" ++ target ++ ext

/-- `WikiLinkProcessor.resolve_file_path`: try the extensions `.md`,
`.markdown`, `` (exact name) in that order under the base directory;
first existing regular file wins. -/
def resolveFilePath (fs : FS) (base target : String) : Option String :=
  if (fsLookup fs (joinPath base target (".md"))).isSome then
    some (joinPath base target (".md"))
  else if (fsLookup fs (joinPath base target (".markdown"))).isSome then
    some (joinPath base target (".markdown"))
  else if (fsLookup fs (joinPath base target (""))).isSome then
    some (joinPath base target (""))
  else none

/-- `WikiLinkProcessor.format_inclusion_error`. -/
def formatInclusionError (target errorMsg : String) : String :=
  "\n\n<div class=\"inclusion-error\">\n<strong>Inclusion Error:</strong> "
    ++ errorMsg ++ ": " ++ target ++ "\n</div>\n\n"

/-- The wrapper emitted around successfully included file content. -/
def inclusionWrap (title content : String) : String :=
  "\n\n<div class=\"included-content\">\n<div class=\"inclusion-title\">"
    ++ title ++ "</div>\n\n" ++ content ++ "\n\n</div>\n\n"

/-- `WikiLinkProcessor._read_file_cached`: stat the file; if the cached
mtime equals the current one return the cached content (hit), else
re-read, refresh the cache entry and evict oldest entries beyond 50
(miss).  `none` models the exceptional path (stat/read failure). -/
def readFileCached (fs : FS) (w : WState) (p : String) : Option (String × WState) :=
  match fsLookup fs p with
  | none => none
  | some (mt, disk) =>
    match dictLookup w.fileCache p with
    | some (cm, cc) =>
      if cm = mt then
        some (cc, { w with cacheHits := w.cacheHits + 1 })
      else
        some (disk, { w with
          cacheMisses := w.cacheMisses + 1,
          fileCache := trimCache 50 (dictInsert w.fileCache p (mt, disk)) })
    | none =>
      some (disk, { w with
        cacheMisses := w.cacheMisses + 1,
        fileCache := trimCache 50 (dictInsert w.fileCache p (mt, disk)) })

/-- Shared tail of the two bracket patterns:
`([^\]|]+)(?:\|([^\]]+))?\]\]` — a nonempty target group, an optional
nonempty title group after `|`, then the closing `]]`. -/
def bracketTail (l : List Char) :
    Option (List Char × Option (List Char) × List Char) :=
  let tgt := l.takeWhile (notCh2 ']' '|')
  if tgt.isEmpty then none else
  match l.dropWhile (notCh2 ']' '|') with
  | ']' :: ']' :: r2 => some (tgt, none, r2)
  | '|' :: r2 =>
    let txt := r2.takeWhile (notCh ']')
    if txt.isEmpty then none else
    (match r2.dropWhile (notCh ']') with
     | ']' :: ']' :: r3 => some (tgt, some txt, r3)
     | _ => none)
  | _ => none

/-- Compiled inclusion pattern `\[\[!([^\]|]+)(?:\|([^\]]+))?\]\]`,
returning the two groups and the rest of the input. -/
def matchIncl (l : List Char) :
    Option ((List Char × Option (List Char)) × List Char) :=
  match dropPre ("[[!").data l with
  | none => none
  | some rest =>
    match bracketTail rest with
    | some (g1, g2, r) => some ((g1, g2), r)
    | none => none

/-- Replacement callback `replace_inclusion` of
`WikiLinkProcessor.process_inclusions`: resolve the (stripped) target,
report a missing file or a circular inclusion as an inline error block,
otherwise read the file through the cache, add the path to the guard
set and wrap the content. -/
def replaceIncl (fs : FS) (base : String) (w : WState)
    (g1 : List Char) (g2 : Option (List Char)) : List Char × WState :=
  let target := pyStrip (String.mk g1)
  let title := match g2 with
    | some t => pyStrip (String.mk t)
    | none => target
  match resolveFilePath fs base target with
  | none => ((formatInclusionError target ("File not found")).data, w)
  | some p =>
    if w.includedFiles.contains p then
      ((formatInclusionError target ("Circular inclusion detected")).data, w)
    else
      match readFileCached fs w p with
      | none => ((formatInclusionError target ("Cannot read file")).data, w)
      | some (content, w1) =>
        let w2 := { w1 with includedFiles := w1.includedFiles ++ [p] }
        ((inclusionWrap title content).data, w2)

/-- Stateful scanner of `process_inclusions` (the replacement callback
threads processor state through the scan). -/
def inclSubAux (fs : FS) (base : String) :
    Nat → WState → List Char → List Char × WState
  | 0, w, l => (l, w)
  | _ + 1, w, [] => ([], w)
  | n + 1, w, c :: cs =>
    match matchIncl (c :: cs) with
    | some ((g1, g2), rest) =>
      let rw := replaceIncl fs base w g1 g2
      let ow := inclSubAux fs base n rw.2 rest
      (rw.1 ++ ow.1, ow.2)
    | none =>
      let ow := inclSubAux fs base n w cs
      (c :: ow.1, ow.2)

/-- `WikiLinkProcessor.process_inclusions` (also `process`, which just
delegates to it): one non-recursive substitution pass over the text. -/
def processInclusions (fs : FS) (base : String) (w : WState) (text : String) :
    String × WState :=
  let ow := inclSubAux fs base text.data.length w text.data
  (String.mk ow.1, ow.2)

/-- The anchor produced for a wiki-link. -/
def anchorHtml (target text : String) : String :=
  "<a href=\"wiki:" ++ target ++ "\" class=\"wiki-link\" data-target=\""
    ++ target ++ "\">" ++ text ++ "</a>"

/-- Compiled pattern `<x-wikilink data-target="([^"]+)">([^<]+)</x-wikilink>`
with its replacement (no stripping in this pass). -/
def matchXWiki (l : List Char) : Option (List Char × List Char) :=
  match dropPre ("<x-wikilink data-target=\"").data l with
  | none => none
  | some r1 =>
    let tgt := r1.takeWhile (notCh '"')
    if tgt.isEmpty then none else
    match r1.dropWhile (notCh '"') with
    | '"' :: '>' :: r2 =>
      let txt := r2.takeWhile (notCh '<')
      if txt.isEmpty then none else
      (match dropPre ("</x-wikilink>").data (r2.dropWhile (notCh '<')) with
       | none => none
       | some r3 => some ((anchorHtml (String.mk tgt) (String.mk txt)).data, r3))
    | _ => none

/-- Compiled pattern `\[\[([^\]|]+)(?:\|([^\]]+))?\]\]` with its
replacement (both groups stripped; text defaults to the target). -/
def matchBrkt (l : List Char) : Option (List Char × List Char) :=
  match dropPre ("[[").data l with
  | none => none
  | some rest =>
    match bracketTail rest with
    | some (g1, g2, r) =>
      let target := pyStrip (String.mk g1)
      let text := match g2 with
        | some t => pyStrip (String.mk t)
        | none => target
      some ((anchorHtml target text).data, r)
    | none => none

/-- `WikiLinkProcessor.process_wikilink_html`: first the structured
`<x-wikilink>` pass, then the raw bracket pass on its output. -/
def processWikilinkHtml (s : String) : String :=
  reSub matchBrkt (reSub matchXWiki s)

/-! ## LaTeXProcessor (`server/latex_processor.py`) -/

/-- Compiled pattern `<x-equation type="display">([^<]*)</x-equation>`
with replacement `$$\1$$` (the group may be empty). -/
def matchDisp (l : List Char) : Option (List Char × List Char) :=
  match dropPre ("<x-equation type=\"display\">").data l with
  | none => none
  | some r1 =>
    let expr := r1.takeWhile (notCh '<')
    match dropPre ("</x-equation>").data (r1.dropWhile (notCh '<')) with
    | none => none
    | some r2 => some (("$$").data ++ expr ++ ("$$").data, r2)

/-- Compiled pattern `<x-equation>([^<]*)</x-equation>` with replacement
`$\1$`. -/
def matchInline (l : List Char) : Option (List Char × List Char) :=
  match dropPre ("<x-equation>").data l with
  | none => none
  | some r1 =>
    let expr := r1.takeWhile (notCh '<')
    match dropPre ("</x-equation>").data (r1.dropWhile (notCh '<')) with
    | none => none
    | some r2 => some (("$").data ++ expr ++ ("$").data, r2)

/-- `LaTeXProcessor.process`: display-formula pass, then inline pass. -/
def latexProcess (s : String) : String :=
  reSub matchInline (reSub matchDisp s)

/-! ## MarkdownProcessor (`server/markdown_processor.py`)

The third-party conversion backend (`markdown_to_html`, i.e. md4c or the
fallbacks) is an external black box and enters the model as a function
parameter `backend : text → wikilinksFlag → latexFlag → html`. -/

/-- Python `str(bool)`, as interpolated into the hash preimage. -/
def pyBool : Bool → String
  | true => "True"
  | false => "False"

/-- `MarkdownProcessor._hash_content` computes the md5 of the string
`text + "|" + str(wl) + "|" + str(lx)`; the model keys the cache by the
md5 preimage itself (md5 treated as injective). -/
def hashContent (text : String) (wl lx : Bool) : String :=
  text ++ "|" ++ pyBool wl ++ "|" ++ pyBool lx

/-- Mutable state of a `MarkdownProcessor`: the bounded document cache
`_content_cache` (key ↦ (processed text, html), insertion-ordered), the
`_last_hash` marker, the `_incremental_enabled` switch, the owned
`WikiLinkProcessor` state, and instrumentation counters recording how
often the backend, the wiki-link post-processor and the LaTeX
post-processor have been invoked. -/
structure MPState where
  contentCache : List (String × String × String)
  lastHash : Option String
  incEnabled : Bool
  w : WState
  backendCalls : Nat
  wikiPostCalls : Nat
  latexCalls : Nat
deriving DecidableEq

/-- A fresh `MarkdownProcessor` state. -/
def initMP : MPState := ⟨[], none, true, initW, 0, 0, 0⟩

/-- The cache-miss (or forced) path of `MarkdownProcessor.convert`:
clear the inclusion guard set, run the (flag-gated) inclusion pass, the
backend, the (flag-gated) wiki-link and LaTeX post-processors, store
the result under the content hash and evict beyond 10 entries. -/
def convertCompute (backend : String → Bool → Bool → String) (fs : FS) (base : String)
    (s : MPState) (text : String) (wl lx : Bool) : String × MPState :=
  let key := hashContent text wl lx
  let w0 := { s.w with includedFiles := [] }
  let tw := if wl then processInclusions fs base w0 text else (text, w0)
  let html0 := backend tw.1 wl lx
  let html1 := if wl then processWikilinkHtml html0 else html0
  let html2 := if lx then latexProcess html1 else html1
  let cache2 := trimCache 10 (dictInsert s.contentCache key (tw.1, html2))
  (html2, ⟨cache2, some key, s.incEnabled, tw.2, s.backendCalls + 1,
    s.wikiPostCalls + (if wl then 1 else 0),
    s.latexCalls + (if lx then 1 else 0)⟩)

/-- `MarkdownProcessor.convert`: on a hit (not forced, incremental
enabled, key equal to `_last_hash` and present in the cache) return the
stored HTML untouched; otherwise take the compute path. -/
def convert (backend : String → Bool → Bool → String) (fs : FS) (base : String)
    (s : MPState) (text : String) (wl lx force : Bool) : String × MPState :=
  let key := hashContent text wl lx
  let hit : Option (String × String) :=
    if force = false ∧ s.incEnabled = true ∧ s.lastHash = some key then
      dictLookup s.contentCache key
    else none
  match hit with
  | some th => (th.2, s)
  | none => convertCompute backend fs base s text wl lx

/-! ## Debounce/Broadcast coordinator (`server/preview_server.py`)

`queue_update` stores the payload as the sole pending update, cancels
the running debounce task and creates a new one; `_debounced_update`
sleeps, then (if not cancelled) takes the pending payload, renders it
and broadcasts to every subscriber.  Timer tasks are modelled by ids:
the state keeps the id of the one live (non-cancelled) task, and the
expiry of any other id is a no-op — a cancelled `asyncio` task never
resumes after its sleep, and a consumed pending slot renders nothing. -/

/-- One update request: the arguments of `queue_update`. -/
structure Payload where
  content : String
  filepath : String
  wl : Bool
  lx : Bool
  scroll : Option Nat
deriving DecidableEq

/-- Coordinator state: the single pending update, the live debounce
timer (if any), a fresh-id counter, the list of performed renders, and
one inbox per connected subscriber. -/
structure CoordState where
  pending : Option Payload
  liveTimer : Option Nat
  nextTimer : Nat
  renders : List Payload
  inboxes : List (List Payload)
deriving DecidableEq

/-- `PreviewServer.queue_update`: overwrite the pending slot, cancel the
previous debounce task, start a fresh one. -/
def queueUpdate (s : CoordState) (p : Payload) : CoordState :=
  { s with
    pending := some p
    liveTimer := some s.nextTimer
    nextTimer := s.nextTimer + 1 }

/-- Expiry of the debounce task with id `id`
(`PreviewServer._debounced_update` after its sleep): a cancelled or
stale task is a no-op; the live task takes the pending payload (if
any), renders it and broadcasts the result to every subscriber. -/
def fireTimer (s : CoordState) (id : Nat) : CoordState :=
  if s.liveTimer = some id then
    match s.pending with
    | some p =>
      { s with
        pending := none
        liveTimer := none
        renders := s.renders ++ [p]
        inboxes := s.inboxes.map (fun ib => ib ++ [p]) }
    | none => { s with liveTimer := none }
  else s

/-! ## Concrete fixtures used by counterexamples and witnesses -/

/-- Identity conversion backend used to instantiate `convert`. -/
def backendId : String → Bool → Bool → String := fun t _ _ => t

/-- Two documents that include each other: `A.md` contains `[[!B]]` and
`B.md` contains `[[!A]]`. -/
def fsCycle : FS := [(("b/A.md"), (1, ("[[!B]]"))), (("b/B.md"), (2, ("[[!A]]")))]

/-- A base directory holding both a plain file `note` and `note.md`. -/
def fsBoth : FS := [(("b/note"), (1, ("plain"))), (("b/note.md"), (2, ("md")))]

/-- Substring membership of `sub` in `l` (used to state the presence or
absence of an error marker in rendered output). -/
def hasSubstr (sub l : List Char) : Bool :=
  l.tails.any (fun t => sub.isPrefixOf t)

/-- Convert each text of a list in turn (wikilinks and latex disabled,
not forced), threading the processor state. -/
def insertMany (texts : List String) (s : MPState) : MPState :=
  texts.foldl (fun st t => (convert backendId [] ("b") st t false false false).2) s

/-- Eleven pairwise distinct document texts. -/
def elevenTexts : List String :=
  [("t00"), ("t01"), ("t02"), ("t03"), ("t04"), ("t05"),
   ("t06"), ("t07"), ("t08"), ("t09"), ("t10")]

/-- Processor state after converting text `ta` then text `tb`. -/
def stateAB : MPState :=
  (convert backendId [] ("b")
    (convert backendId [] ("b") initMP ("ta") false false false).2
    ("tb") false false false).2

/-- The structured wiki-link tag emitted by the md4c backend. -/
def xwikiTag (target text : String) : String :=
  "<x-wikilink data-target=\"" ++ target ++ "\">" ++ text ++ "</x-wikilink>"

/-- Raw bracket wiki-link with explicit link text. -/
def brktTitled (target text : String) : String :=
  "[[" ++ target ++ "|" ++ text ++ "]]"

/-- Raw bracket wiki-link without link text. -/
def brktPlain (target : String) : String :=
  "[[" ++ target ++ "]]"

/-- The structured display-equation tag emitted by the md4c backend. -/
def dispTag (expr : String) : String :=
  "<x-equation type=\"display\">" ++ expr ++ "</x-equation>"

/-- The structured inline-equation tag emitted by the md4c backend. -/
def inlineTag (expr : String) : String :=
  "<x-equation>" ++ expr ++ "</x-equation>"

/-! ## Toolkit lemmas about the scanner primitives -/

theorem dropPre_append (p l : List Char) : dropPre p (p ++ l) = some l := by
  induction p with
  | nil => rfl
  | cons c cs ih => simp [dropPre, ih]

theorem dropPre_cons_ne (pc c : Char) (ps cs : List Char) (h : pc ≠ c) :
    dropPre (pc :: ps) (c :: cs) = none := by
  simp [dropPre, h]

theorem takeWhile_append_pos (p : Char → Bool) (a b : List Char)
    (h : ∀ c ∈ a, p c = true) : (a ++ b).takeWhile p = a ++ b.takeWhile p := by
  induction a with
  | nil => simp
  | cons c cs ih =>
    have hc : p c = true := h c (List.mem_cons_self c cs)
    simp [List.takeWhile_cons, hc, ih fun d hd => h d (List.mem_cons_of_mem c hd)]

theorem dropWhile_append_pos (p : Char → Bool) (a b : List Char)
    (h : ∀ c ∈ a, p c = true) : (a ++ b).dropWhile p = b.dropWhile p := by
  induction a with
  | nil => simp
  | cons c cs ih =>
    have hc : p c = true := h c (List.mem_cons_self c cs)
    simp [List.dropWhile_cons, hc, ih fun d hd => h d (List.mem_cons_of_mem c hd)]

theorem reSubAux_nil (m : List Char → Option (List Char × List Char)) (n : Nat) :
    reSubAux m n [] = [] := by
  cases n <;> rfl

theorem reSubAux_match (m : List Char → Option (List Char × List Char))
    (n : Nat) (c : Char) (cs r rest : List Char) (h : m (c :: cs) = some (r, rest)) :
    reSubAux m (n + 1) (c :: cs) = r ++ reSubAux m n rest := by
  simp [reSubAux, h]

theorem reSubAux_none (m : List Char → Option (List Char × List Char))
    (n : Nat) (c : Char) (cs : List Char) (h : m (c :: cs) = none) :
    reSubAux m (n + 1) (c :: cs) = c :: reSubAux m n cs := by
  simp [reSubAux, h]

theorem reSub_full_match (m : List Char → Option (List Char × List Char))
    (s : String) (r : List Char) (h : m s.data = some (r, [])) (hne : s.data ≠ []) :
    reSub m s = String.mk r := by
  unfold reSub
  cases hd : s.data with
  | nil => exact absurd hd hne
  | cons c cs =>
    rw [hd] at h
    rw [List.length_cons, reSubAux_match m cs.length c cs r [] h, reSubAux_nil,
      List.append_nil]

theorem reSubAux_skip (m : List Char → Option (List Char × List Char)) (trig : Char)
    (hm : ∀ (c : Char) (cs : List Char), c ≠ trig → m (c :: cs) = none) :
    ∀ (a b : List Char) (n : Nat), (∀ c ∈ a, c ≠ trig) →
      reSubAux m (a.length + n) (a ++ b) = a ++ reSubAux m n b := by
  intro a
  induction a with
  | nil => intro b n _; simp
  | cons c cs ih =>
    intro b n h
    have hc : c ≠ trig := h c (List.mem_cons_self c cs)
    have e1 : (c :: cs).length + n = (cs.length + n) + 1 := by
      simp [List.length_cons]; omega
    rw [List.cons_append, e1,
      reSubAux_none m (cs.length + n) c (cs ++ b) (hm c (cs ++ b) hc),
      ih b n fun d hd => h d (List.mem_cons_of_mem c hd)]
    simp

theorem reSub_id (m : List Char → Option (List Char × List Char)) (trig : Char)
    (hm : ∀ (c : Char) (cs : List Char), c ≠ trig → m (c :: cs) = none) (s : String)
    (hs : ∀ c ∈ s.data, c ≠ trig) : reSub m s = s := by
  unfold reSub
  have h0 := reSubAux_skip m trig hm s.data [] 0 hs
  simp only [List.append_nil, Nat.add_zero, reSubAux_nil] at h0
  rw [h0]

/-! ## Trigger characters of the compiled patterns

Every pattern of the code base starts with a fixed literal character
(`<` or `[`), so a scanning position whose head differs cannot match. -/

theorem matchXWiki_ne (c : Char) (cs : List Char) (h : c ≠ '<') :
    matchXWiki (c :: cs) = none := by
  simp [matchXWiki, dropPre, Ne.symm h]

theorem matchBrkt_ne (c : Char) (cs : List Char) (h : c ≠ '[') :
    matchBrkt (c :: cs) = none := by
  simp [matchBrkt, dropPre, Ne.symm h]

theorem matchIncl_ne (c : Char) (cs : List Char) (h : c ≠ '[') :
    matchIncl (c :: cs) = none := by
  simp [matchIncl, dropPre, Ne.symm h]

theorem matchDisp_ne (c : Char) (cs : List Char) (h : c ≠ '<') :
    matchDisp (c :: cs) = none := by
  simp [matchDisp, dropPre, Ne.symm h]

theorem matchInline_ne (c : Char) (cs : List Char) (h : c ≠ '<') :
    matchInline (c :: cs) = none := by
  simp [matchInline, dropPre, Ne.symm h]

/-- The display-formula pattern requires a space and the `type`
attribute after `<x-equation`, so it cannot fire at the opening of a
plain inline `<x-equation>` tag. -/
theorem matchDisp_inline_open (rest : List Char) :
    matchDisp (("<x-equation>").data ++ rest) = none := by
  simp [matchDisp, dropPre]

/-! ## Full matches of the LaTeX patterns against lone tags -/

theorem matchDisp_marker (EXPR : String) (hE : ∀ c ∈ EXPR.data, c ≠ '<') :
    matchDisp ((dispTag EXPR).data) = some (((("$$") ++ EXPR ++ ("$$")).data), []) := by
  have hpos : ∀ c ∈ EXPR.data, notCh '<' c = true := by
    intro c hc
    simp [notCh, hE c hc]
  have hd : (dispTag EXPR).data =
      ("<x-equation type=\"display\">").data ++ (EXPR.data ++ ("</x-equation>").data) := by
    simp [dispTag, String.data_append]
  have htake : (EXPR.data ++ ("</x-equation>").data).takeWhile (notCh '<') = EXPR.data := by
    rw [takeWhile_append_pos _ _ _ hpos]
    have : (("</x-equation>").data).takeWhile (notCh '<') = [] := by decide
    simp [this]
  have hdrop : (EXPR.data ++ ("</x-equation>").data).dropWhile (notCh '<')
      = ("</x-equation>").data := by
    rw [dropWhile_append_pos _ _ _ hpos]
    decide
  have hclose : dropPre (("</x-equation>").data) (("</x-equation>").data) = some [] := by
    decide
  rw [hd]
  simp only [matchDisp, dropPre_append, htake, hdrop, hclose]
  simp [String.data_append]

theorem matchInline_marker (EXPR : String) (hE : ∀ c ∈ EXPR.data, c ≠ '<') :
    matchInline ((inlineTag EXPR).data) = some (((("$") ++ EXPR ++ ("$")).data), []) := by
  have hpos : ∀ c ∈ EXPR.data, notCh '<' c = true := by
    intro c hc
    simp [notCh, hE c hc]
  have hd : (inlineTag EXPR).data =
      ("<x-equation>").data ++ (EXPR.data ++ ("</x-equation>").data) := by
    simp [inlineTag, String.data_append]
  have htake : (EXPR.data ++ ("</x-equation>").data).takeWhile (notCh '<') = EXPR.data := by
    rw [takeWhile_append_pos _ _ _ hpos]
    have : (("</x-equation>").data).takeWhile (notCh '<') = [] := by decide
    simp [this]
  have hdrop : (EXPR.data ++ ("</x-equation>").data).dropWhile (notCh '<')
      = ("</x-equation>").data := by
    rw [dropWhile_append_pos _ _ _ hpos]
    decide
  have hclose : dropPre (("</x-equation>").data) (("</x-equation>").data) = some [] := by
    decide
  rw [hd]
  simp only [matchInline, dropPre_append, htake, hdrop, hclose]
  simp [String.data_append]

/-- The display pass rewrites a lone display tag to `$$EXPR$$`. -/
theorem reSubDisp_marker (EXPR : String) (hE : ∀ c ∈ EXPR.data, c ≠ '<') :
    reSub matchDisp (dispTag EXPR) = ("$$") ++ EXPR ++ ("$$") := by
  have hne : (dispTag EXPR).data ≠ [] := by
    simp [dispTag, String.data_append]
  rw [reSub_full_match matchDisp (dispTag EXPR) _ (matchDisp_marker EXPR hE) hne]

/-- The display pass leaves a lone inline tag untouched. -/
theorem reSubDisp_inline_id (EXPR : String) (hE : ∀ c ∈ EXPR.data, c ≠ '<') :
    reSub matchDisp (inlineTag EXPR) = inlineTag EXPR := by
  have hd : (inlineTag EXPR).data =
      '<' :: ((("x-equation>").data ++ EXPR.data) ++ ("</x-equation>").data) := by
    simp [inlineTag, String.data_append]
  have h1 : matchDisp ('<' :: ((("x-equation>").data ++ EXPR.data)
      ++ ("</x-equation>").data)) = none := by
    have h2 : '<' :: ((("x-equation>").data ++ EXPR.data) ++ ("</x-equation>").data)
        = ("<x-equation>").data ++ (EXPR.data ++ ("</x-equation>").data) := by
      simp [String.data_append]
    rw [h2]
    exact matchDisp_inline_open _
  have hskip : ∀ c ∈ ("x-equation>").data ++ EXPR.data, c ≠ '<' :=
    List.forall_mem_append.2 ⟨by decide, hE⟩
  have h3 : reSubAux matchDisp ((("</x-equation>").data).length) (("</x-equation>").data)
      = ("</x-equation>").data := by decide
  unfold reSub
  rw [hd]
  rw [List.length_cons, reSubAux_none _ _ _ _ h1, List.length_append,
    reSubAux_skip matchDisp '<' matchDisp_ne _ _ _ hskip, h3]
  rw [← hd]

/-! ## Full matches of the wiki-link patterns against lone markers -/

theorem forall_ne_append (t : Char) (s1 s2 : String)
    (h1 : ∀ c ∈ s1.data, c ≠ t) (h2 : ∀ c ∈ s2.data, c ≠ t) :
    ∀ c ∈ (s1 ++ s2).data, c ≠ t := by
  rw [String.data_append]
  exact List.forall_mem_append.2 ⟨h1, h2⟩

theorem matchXWiki_marker (T TEXT : String) (hT : T.data ≠ [])
    (hTq : ∀ c ∈ T.data, c ≠ '"') (hX : TEXT.data ≠ [])
    (hXlt : ∀ c ∈ TEXT.data, c ≠ '<') :
    matchXWiki ((xwikiTag T TEXT).data) = some ((anchorHtml T TEXT).data, []) := by
  have hposT : ∀ c ∈ T.data, notCh '"' c = true := by
    intro c hc
    simp [notCh, hTq c hc]
  have hposX : ∀ c ∈ TEXT.data, notCh '<' c = true := by
    intro c hc
    simp [notCh, hXlt c hc]
  have hd : (xwikiTag T TEXT).data = ("<x-wikilink data-target=\"").data
      ++ (T.data ++ ('"' :: '>' :: (TEXT.data ++ ("</x-wikilink>").data))) := by
    simp [xwikiTag, String.data_append]
  have htake : (T.data ++ ('"' :: '>' :: (TEXT.data ++ ("</x-wikilink>").data))).takeWhile
      (notCh '"') = T.data := by
    rw [takeWhile_append_pos _ _ _ hposT]
    simp [List.takeWhile_cons, notCh]
  have hdrop : (T.data ++ ('"' :: '>' :: (TEXT.data ++ ("</x-wikilink>").data))).dropWhile
      (notCh '"') = '"' :: '>' :: (TEXT.data ++ ("</x-wikilink>").data) := by
    rw [dropWhile_append_pos _ _ _ hposT]
    simp [List.dropWhile_cons, notCh]
  have htake2 : (TEXT.data ++ ("</x-wikilink>").data).takeWhile (notCh '<')
      = TEXT.data := by
    rw [takeWhile_append_pos _ _ _ hposX]
    have : (("</x-wikilink>").data).takeWhile (notCh '<') = [] := by decide
    simp [this]
  have hdrop2 : (TEXT.data ++ ("</x-wikilink>").data).dropWhile (notCh '<')
      = ("</x-wikilink>").data := by
    rw [dropWhile_append_pos _ _ _ hposX]
    decide
  have hclose : dropPre (("</x-wikilink>").data) (("</x-wikilink>").data) = some [] := by
    decide
  rw [hd]
  simp only [matchXWiki, dropPre_append, htake, hdrop, htake2, hdrop2, hclose]
  simp [hT, hX]

theorem bracketTail_titled (T TEXT : String) (hT : T.data ≠ []) (hX : TEXT.data ≠ [])
    (hTc : ∀ c ∈ T.data, c ≠ ']' ∧ c ≠ '|') (hXc : ∀ c ∈ TEXT.data, c ≠ ']') :
    bracketTail (T.data ++ ('|' :: (TEXT.data ++ (']' :: ']' :: []))))
      = some (T.data, some TEXT.data, []) := by
  have hposT : ∀ c ∈ T.data, notCh2 ']' '|' c = true := by
    intro c hc
    simp [notCh2, (hTc c hc).1, (hTc c hc).2]
  have hposX : ∀ c ∈ TEXT.data, notCh ']' c = true := by
    intro c hc
    simp [notCh, hXc c hc]
  have htake : (T.data ++ ('|' :: (TEXT.data ++ (']' :: ']' :: [])))).takeWhile
      (notCh2 ']' '|') = T.data := by
    rw [takeWhile_append_pos _ _ _ hposT]
    simp [List.takeWhile_cons, notCh2]
  have hdrop : (T.data ++ ('|' :: (TEXT.data ++ (']' :: ']' :: [])))).dropWhile
      (notCh2 ']' '|') = '|' :: (TEXT.data ++ (']' :: ']' :: [])) := by
    rw [dropWhile_append_pos _ _ _ hposT]
    simp [List.dropWhile_cons, notCh2]
  have htake2 : (TEXT.data ++ (']' :: ']' :: [])).takeWhile (notCh ']') = TEXT.data := by
    rw [takeWhile_append_pos _ _ _ hposX]
    simp [List.takeWhile_cons, notCh]
  have hdrop2 : (TEXT.data ++ (']' :: ']' :: [])).dropWhile (notCh ']')
      = ']' :: ']' :: [] := by
    rw [dropWhile_append_pos _ _ _ hposX]
    simp [List.dropWhile_cons, notCh]
  simp only [bracketTail, htake, hdrop, htake2, hdrop2]
  simp [hT, hX]

theorem bracketTail_plain (T : String) (hT : T.data ≠ [])
    (hTc : ∀ c ∈ T.data, c ≠ ']' ∧ c ≠ '|') :
    bracketTail (T.data ++ (']' :: ']' :: [])) = some (T.data, none, []) := by
  have hposT : ∀ c ∈ T.data, notCh2 ']' '|' c = true := by
    intro c hc
    simp [notCh2, (hTc c hc).1, (hTc c hc).2]
  have htake : (T.data ++ (']' :: ']' :: [])).takeWhile (notCh2 ']' '|') = T.data := by
    rw [takeWhile_append_pos _ _ _ hposT]
    simp [List.takeWhile_cons, notCh2]
  have hdrop : (T.data ++ (']' :: ']' :: [])).dropWhile (notCh2 ']' '|')
      = ']' :: ']' :: [] := by
    rw [dropWhile_append_pos _ _ _ hposT]
    simp [List.dropWhile_cons, notCh2]
  simp only [bracketTail, htake, hdrop]
  simp [hT]

theorem matchBrkt_titled (T TEXT : String) (hT : T.data ≠ []) (hX : TEXT.data ≠ [])
    (hTc : ∀ c ∈ T.data, c ≠ ']' ∧ c ≠ '|') (hXc : ∀ c ∈ TEXT.data, c ≠ ']') :
    matchBrkt ((brktTitled T TEXT).data)
      = some ((anchorHtml (pyStrip T) (pyStrip TEXT)).data, []) := by
  have hd : (brktTitled T TEXT).data = ("[[").data
      ++ (T.data ++ ('|' :: (TEXT.data ++ (']' :: ']' :: [])))) := by
    simp [brktTitled, String.data_append]
  rw [hd]
  simp only [matchBrkt, dropPre_append, bracketTail_titled T TEXT hT hX hTc hXc]

theorem matchBrkt_plain (T : String) (hT : T.data ≠ [])
    (hTc : ∀ c ∈ T.data, c ≠ ']' ∧ c ≠ '|') :
    matchBrkt ((brktPlain T).data)
      = some ((anchorHtml (pyStrip T) (pyStrip T)).data, []) := by
  have hd : (brktPlain T).data = ("[[").data ++ (T.data ++ (']' :: ']' :: [])) := by
    simp [brktPlain, String.data_append]
  rw [hd]
  simp only [matchBrkt, dropPre_append, bracketTail_plain T hT hTc]

/-! ## Pipeline behaviour of `process_wikilink_html` on lone markers -/

theorem processWikilinkHtml_structured (T TEXT : String) (hT : T.data ≠ [])
    (hX : TEXT.data ≠ []) (hTc : ∀ c ∈ T.data, c ≠ '"' ∧ c ≠ '[')
    (hXc : ∀ c ∈ TEXT.data, c ≠ '<' ∧ c ≠ '[') :
    processWikilinkHtml (xwikiTag T TEXT) = anchorHtml T TEXT := by
  have hTb : ∀ c ∈ T.data, c ≠ '[' := fun c hc => (hTc c hc).2
  have hXb : ∀ c ∈ TEXT.data, c ≠ '[' := fun c hc => (hXc c hc).2
  have hne : (xwikiTag T TEXT).data ≠ [] := by
    simp [xwikiTag, String.data_append]
  have hm := matchXWiki_marker T TEXT hT (fun c hc => (hTc c hc).1) hX
    (fun c hc => (hXc c hc).1)
  have hanchor : ∀ c ∈ (anchorHtml T TEXT).data, c ≠ '[' := by
    unfold anchorHtml
    exact forall_ne_append _ _ _ (forall_ne_append _ _ _ (forall_ne_append _ _ _
      (forall_ne_append _ _ _ (forall_ne_append _ _ _ (forall_ne_append _ _ _
        (by decide) hTb) (by decide)) hTb) (by decide)) hXb) (by decide)
  unfold processWikilinkHtml
  rw [reSub_full_match matchXWiki _ _ hm hne]
  exact reSub_id matchBrkt '[' matchBrkt_ne _ hanchor

theorem processWikilinkHtml_titled (T TEXT : String) (hT : T.data ≠ [])
    (hX : TEXT.data ≠ [])
    (hTc : ∀ c ∈ T.data, c ≠ ']' ∧ c ≠ '|' ∧ c ≠ '<')
    (hXc : ∀ c ∈ TEXT.data, c ≠ ']' ∧ c ≠ '<') :
    processWikilinkHtml (brktTitled T TEXT)
      = anchorHtml (pyStrip T) (pyStrip TEXT) := by
  have hnoLt : ∀ c ∈ (brktTitled T TEXT).data, c ≠ '<' := by
    unfold brktTitled
    exact forall_ne_append _ _ _ (forall_ne_append _ _ _ (forall_ne_append _ _ _
      (forall_ne_append _ _ _ (by decide) (fun c hc => (hTc c hc).2.2)) (by decide))
      (fun c hc => (hXc c hc).2)) (by decide)
  have hne : (brktTitled T TEXT).data ≠ [] := by
    simp [brktTitled, String.data_append]
  have hm := matchBrkt_titled T TEXT hT hX
    (fun c hc => ⟨(hTc c hc).1, (hTc c hc).2.1⟩) (fun c hc => (hXc c hc).1)
  unfold processWikilinkHtml
  rw [reSub_id matchXWiki '<' matchXWiki_ne _ hnoLt]
  rw [reSub_full_match matchBrkt _ _ hm hne]

theorem processWikilinkHtml_plain (T : String) (hT : T.data ≠ [])
    (hTc : ∀ c ∈ T.data, c ≠ ']' ∧ c ≠ '|' ∧ c ≠ '<') :
    processWikilinkHtml (brktPlain T) = anchorHtml (pyStrip T) (pyStrip T) := by
  have hnoLt : ∀ c ∈ (brktPlain T).data, c ≠ '<' := by
    unfold brktPlain
    exact forall_ne_append _ _ _ (forall_ne_append _ _ _ (by decide)
      (fun c hc => (hTc c hc).2.2)) (by decide)
  have hne : (brktPlain T).data ≠ [] := by
    simp [brktPlain, String.data_append]
  have hm := matchBrkt_plain T hT (fun c hc => ⟨(hTc c hc).1, (hTc c hc).2.1⟩)
  unfold processWikilinkHtml
  rw [reSub_id matchXWiki '<' matchXWiki_ne _ hnoLt]
  rw [reSub_full_match matchBrkt _ _ hm hne]

/-! ## Dictionary, trim and file-cache lemmas -/

theorem dictLookup_insert_self {α : Type} (d : List (String × α)) (k : String) (v : α) :
    dictLookup (dictInsert d k v) k = some v := by
  induction d with
  | nil => simp [dictInsert, dictLookup]
  | cons e rest ih =>
    obtain ⟨q, w⟩ := e
    by_cases h : q = k
    · simp [dictInsert, dictLookup, h]
    · simp [dictInsert, dictLookup, h, ih]

theorem dictInsert_of_absent {α : Type} (d : List (String × α)) (k : String) (v : α)
    (h : dictLookup d k = none) : dictInsert d k v = d ++ [(k, v)] := by
  induction d with
  | nil => simp [dictInsert]
  | cons e rest ih =>
    obtain ⟨q, w⟩ := e
    by_cases hq : q = k
    · simp [dictLookup, hq] at h
    · simp [dictLookup, hq] at h
      simp [dictInsert, hq, ih h]

theorem dictInsert_length_of_present {α : Type} (d : List (String × α)) (k : String)
    (v : α) (h : (dictLookup d k).isSome) : (dictInsert d k v).length = d.length := by
  induction d with
  | nil => simp [dictLookup] at h
  | cons e rest ih =>
    obtain ⟨q, w⟩ := e
    by_cases hq : q = k
    · simp [dictInsert, hq]
    · simp [dictLookup, hq] at h
      simp [dictInsert, hq, ih h]

theorem dictInsert_length_le {α : Type} (d : List (String × α)) (k : String) (v : α) :
    (dictInsert d k v).length ≤ d.length + 1 := by
  induction d with
  | nil => simp [dictInsert]
  | cons e rest ih =>
    obtain ⟨q, w⟩ := e
    by_cases hq : q = k
    · simp [dictInsert, hq]
    · simp only [dictInsert, if_neg hq, List.length_cons]
      omega

theorem dictLookup_drop_none {α : Type} (d : List (String × α)) (k : String)
    (h : dictLookup d k = none) : ∀ j, dictLookup (d.drop j) k = none := by
  induction d with
  | nil => intro j; simp [dictLookup]
  | cons e rest ih =>
    obtain ⟨q, w⟩ := e
    by_cases hq : q = k
    · simp [dictLookup, hq] at h
    · simp only [dictLookup, if_neg hq] at h
      intro j
      cases j with
      | zero => simp [dictLookup, hq, h]
      | succ j2 => simpa using ih h j2

theorem dictLookup_append_of_none {α : Type} (d1 d2 : List (String × α)) (k : String)
    (h : dictLookup d1 k = none) : dictLookup (d1 ++ d2) k = dictLookup d2 k := by
  induction d1 with
  | nil => simp
  | cons e rest ih =>
    obtain ⟨q, w⟩ := e
    by_cases hq : q = k
    · simp [dictLookup, hq] at h
    · simp only [dictLookup, if_neg hq] at h
      simp [dictLookup, hq, ih h]

theorem trimCache_id {α : Type} (cap : Nat) (d : List (String × α))
    (h : d.length ≤ cap) : trimCache cap d = d := by
  unfold trimCache
  rw [if_neg]
  omega

theorem trimCache_length_le {α : Type} (cap : Nat) (d : List (String × α))
    (h : d.length ≤ cap + 1) : (trimCache cap d).length ≤ cap := by
  unfold trimCache
  split
  · simp only [List.length_drop]
    omega
  · omega

theorem trimCache_lookup_fresh {α : Type} (cap : Nat) (d : List (String × α))
    (k : String) (v : α) (hcap : 0 < cap) (h : dictLookup d k = none)
    (hlen : d.length ≤ cap) :
    dictLookup (trimCache cap (d ++ [(k, v)])) k = some v := by
  unfold trimCache
  split
  · next hgt =>
    have hlen2 : (d ++ [(k, v)]).length = d.length + 1 := by simp
    have hle : (d ++ [(k, v)]).length - cap ≤ d.length := by omega
    rw [List.drop_append_of_le_length hle]
    rw [dictLookup_append_of_none _ _ _ (dictLookup_drop_none d k h _)]
    simp [dictLookup]
  · rw [dictLookup_append_of_none _ _ _ h]
    simp [dictLookup]

theorem length_dropWhile_le (p : Char → Bool) (l : List Char) :
    (l.dropWhile p).length ≤ l.length := by
  induction l with
  | nil => simp
  | cons c cs ih =>
    by_cases h : p c
    · simp only [List.dropWhile_cons, if_pos h, List.length_cons]
      omega
    · simp [List.dropWhile_cons, h]

/-! ## Consumption bounds: a successful match eats at least one character -/

theorem dropPre_length (p : List Char) : ∀ (l r : List Char),
    dropPre p l = some r → l.length = p.length + r.length := by
  induction p with
  | nil =>
    intro l r h
    simp [dropPre] at h
    simp [h]
  | cons c cs ih =>
    intro l r h
    cases l with
    | nil => simp [dropPre] at h
    | cons d ds =>
      simp only [dropPre] at h
      split at h
      · have := ih ds r h
        simp only [List.length_cons, this]
        omega
      · simp at h

theorem bracketTail_rest_le (l g1 : List Char) (g2 : Option (List Char)) (rest : List Char)
    (h : bracketTail l = some (g1, g2, rest)) : rest.length ≤ l.length := by
  have hd1 := length_dropWhile_le (notCh2 ']' '|') l
  unfold bracketTail at h
  by_cases he : (l.takeWhile (notCh2 ']' '|')).isEmpty
  · simp [he] at h
  · simp only [he, Bool.false_eq_true, if_false] at h
    split at h
    · next r2 heq =>
      simp only [Option.some.injEq, Prod.mk.injEq] at h
      rw [← h.2.2]
      have h4 : (l.dropWhile (notCh2 ']' '|')).length = r2.length + 2 := by
        rw [heq]
        simp
      omega
    · next r2 heq =>
      have hd2 := length_dropWhile_le (notCh ']') r2
      have hlen2 : (l.dropWhile (notCh2 ']' '|')).length = r2.length + 1 := by
        rw [heq]
        simp
      by_cases ht : (r2.takeWhile (notCh ']')).isEmpty
      · simp [ht] at h
      · simp only [ht, Bool.false_eq_true, if_false] at h
        split at h
        · next r3 heq3 =>
          simp only [Option.some.injEq, Prod.mk.injEq] at h
          rw [← h.2.2]
          have h4 : (r2.dropWhile (notCh ']')).length = r3.length + 2 := by
            rw [heq3]
            simp
          omega
        · simp at h
    · simp at h

theorem matchIncl_rest_lt (l g1 : List Char) (g2 : Option (List Char)) (rest : List Char)
    (h : matchIncl l = some ((g1, g2), rest)) : rest.length < l.length := by
  unfold matchIncl at h
  split at h
  · simp at h
  · next r1 heq =>
    have hlen := dropPre_length (("[[!").data) l r1 heq
    split at h
    · next g1x g2x rx heq2 =>
      simp only [Option.some.injEq, Prod.mk.injEq] at h
      obtain ⟨⟨ha, hb⟩, hc⟩ := h
      subst hc
      have hb2 := bracketTail_rest_le r1 g1x g2x rx heq2
      have h3 : (("[[!").data).length = 3 := by decide
      omega
    · simp at h

/-! ## Step equations for the stateful inclusion scanner -/

theorem inclSubAux_nil (fs : FS) (base : String) (n : Nat) (w : WState) :
    inclSubAux fs base n w [] = ([], w) := by
  cases n <;> rfl

theorem inclSubAux_none (fs : FS) (base : String) (n : Nat) (w : WState)
    (c : Char) (cs : List Char) (h : matchIncl (c :: cs) = none) :
    inclSubAux fs base (n + 1) w (c :: cs)
      = (c :: (inclSubAux fs base n w cs).1, (inclSubAux fs base n w cs).2) := by
  simp [inclSubAux, h]

theorem inclSubAux_step (fs : FS) (base : String) (n : Nat) (w : WState)
    (c : Char) (cs g1 : List Char) (g2 : Option (List Char)) (rest : List Char)
    (h : matchIncl (c :: cs) = some ((g1, g2), rest)) :
    inclSubAux fs base (n + 1) w (c :: cs)
      = ((replaceIncl fs base w g1 g2).1
           ++ (inclSubAux fs base n (replaceIncl fs base w g1 g2).2 rest).1,
         (inclSubAux fs base n (replaceIncl fs base w g1 g2).2 rest).2) := by
  simp [inclSubAux, h]

theorem inclSubAux_fuel_ge (fs : FS) (base : String) : ∀ (n : Nat) (l : List Char)
    (w : WState), l.length ≤ n →
    inclSubAux fs base n w l = inclSubAux fs base l.length w l := by
  intro n
  induction n using Nat.strong_induction_on with
  | _ n ih =>
    intro l w h
    cases l with
    | nil => simp [inclSubAux_nil]
    | cons c cs =>
      have hn : ∃ n2, n = n2 + 1 := by
        refine ⟨n - 1, ?_⟩
        simp only [List.length_cons] at h
        omega
      obtain ⟨n2, rfl⟩ := hn
      have hcs : cs.length ≤ n2 := by
        simp only [List.length_cons] at h
        omega
      cases hm : matchIncl (c :: cs) with
      | none =>
        rw [inclSubAux_none fs base n2 w c cs hm, List.length_cons,
          inclSubAux_none fs base cs.length w c cs hm,
          ih n2 (by omega) cs w hcs, ih cs.length (by omega) cs w (le_refl _)]
      | some g =>
        obtain ⟨⟨g1, g2⟩, rest⟩ := g
        have hrest : rest.length < (c :: cs).length := matchIncl_rest_lt _ _ _ _ hm
        simp only [List.length_cons] at hrest
        rw [inclSubAux_step fs base n2 w c cs g1 g2 rest hm, List.length_cons,
          inclSubAux_step fs base cs.length w c cs g1 g2 rest hm,
          ih n2 (by omega) rest _ (by omega),
          ih cs.length (by omega) rest _ (by omega)]

theorem inclSubAux_skip (fs : FS) (base : String) :
    ∀ (a b : List Char) (n : Nat) (w : WState), (∀ c ∈ a, c ≠ '[') →
      inclSubAux fs base (a.length + n) w (a ++ b)
        = (a ++ (inclSubAux fs base n w b).1, (inclSubAux fs base n w b).2) := by
  intro a
  induction a with
  | nil => intro b n w _; simp
  | cons c cs ih =>
    intro b n w h
    have hc : c ≠ '[' := h c (List.mem_cons_self c cs)
    have e1 : (c :: cs).length + n = (cs.length + n) + 1 := by
      simp only [List.length_cons]
      omega
    rw [List.cons_append, e1,
      inclSubAux_none fs base (cs.length + n) w c (cs ++ b)
        (matchIncl_ne c (cs ++ b) hc),
      ih b n w fun d hd => h d (List.mem_cons_of_mem c hd)]
    simp

theorem inclSubAux_id (fs : FS) (base : String) (l : List Char) (w : WState)
    (h : ∀ c ∈ l, c ≠ '[') : inclSubAux fs base l.length w l = (l, w) := by
  have h0 := inclSubAux_skip fs base l [] 0 w h
  simpa [inclSubAux_nil] using h0

theorem inclSubAux_start_match (fs : FS) (base : String) (w : WState)
    (l g1 : List Char) (g2 : Option (List Char)) (rest : List Char)
    (h : matchIncl l = some ((g1, g2), rest)) :
    inclSubAux fs base l.length w l
      = ((replaceIncl fs base w g1 g2).1
          ++ (inclSubAux fs base rest.length (replaceIncl fs base w g1 g2).2 rest).1,
         (inclSubAux fs base rest.length (replaceIncl fs base w g1 g2).2 rest).2) := by
  cases l with
  | nil => simp [matchIncl, dropPre] at h
  | cons c cs =>
    have hrest : rest.length ≤ cs.length := by
      have h2 := matchIncl_rest_lt _ _ _ _ h
      simp only [List.length_cons] at h2
      omega
    rw [List.length_cons, inclSubAux_step fs base cs.length w c cs g1 g2 rest h,
      inclSubAux_fuel_ge fs base cs.length rest _ hrest]

/-! ## Concrete matches and replacements used by the inclusion claims -/

theorem matchIncl_doc (rest : List Char) :
    matchIncl (("[[!doc]]").data ++ rest) = some (((("doc").data), none), rest) := by
  have hd : ("[[!doc]]").data ++ rest
      = '[' :: '[' :: '!' :: 'd' :: 'o' :: 'c' :: ']' :: ']' :: rest := rfl
  rw [hd]
  simp [matchIncl, bracketTail, dropPre, notCh2, List.takeWhile_cons, List.dropWhile_cons]

theorem matchIncl_miss (rest : List Char) :
    matchIncl (("[[!miss]]").data ++ rest) = some (((("miss").data), none), rest) := by
  have hd : ("[[!miss]]").data ++ rest
      = '[' :: '[' :: '!' :: 'm' :: 'i' :: 's' :: 's' :: ']' :: ']' :: rest := rfl
  rw [hd]
  simp [matchIncl, bracketTail, dropPre, notCh2, List.takeWhile_cons, List.dropWhile_cons]

theorem replIncl_first (content : String) (mt : Nat) :
    replaceIncl [(("b/doc.md"), (mt, content))] ("b") initW (("doc").data) none
      = ((inclusionWrap ("doc") content).data,
         ⟨[("b/doc.md")], [(("b/doc.md"), (mt, content))], 0, 1⟩) := rfl

theorem replIncl_second (content : String) (mt : Nat) :
    replaceIncl [(("b/doc.md"), (mt, content))] ("b")
        ⟨[("b/doc.md")], [(("b/doc.md"), (mt, content))], 0, 1⟩ (("doc").data) none
      = ((formatInclusionError ("doc") ("Circular inclusion detected")).data,
         ⟨[("b/doc.md")], [(("b/doc.md"), (mt, content))], 0, 1⟩) := rfl

theorem replIncl_miss (fs : FS) (base : String) (w : WState)
    (h : resolveFilePath fs base ("miss") = none) :
    replaceIncl fs base w (("miss").data) none
      = ((formatInclusionError ("miss") ("File not found")).data, w) := by
  have hs : pyStrip (String.mk (("miss").data)) = ("miss") := by decide
  simp [replaceIncl, hs, h]

theorem mk_append2 (a b : String) : String.mk (a.data ++ b.data) = a ++ b := by
  have h : (a ++ b).data = a.data ++ b.data := String.data_append a b
  rw [← h]

theorem mk_append3 (a b c : String) :
    String.mk (a.data ++ (b.data ++ c.data)) = a ++ b ++ c := by
  have h : (a ++ b ++ c).data = a.data ++ (b.data ++ c.data) := by
    simp [String.data_append, List.append_assoc]
  rw [← h]

theorem readFileCached_cache_le (fs : FS) (w : WState) (p : String) (r : String)
    (w2 : WState) (h : readFileCached fs w p = some (r, w2))
    (hw : w.fileCache.length ≤ 50) : w2.fileCache.length ≤ 50 := by
  unfold readFileCached at h
  split at h
  · simp at h
  · next mt disk heq =>
    split at h
    · next cm cc heq2 =>
      split at h
      · simp only [Option.some.injEq, Prod.mk.injEq] at h
        rw [← h.2]
        exact hw
      · simp only [Option.some.injEq, Prod.mk.injEq] at h
        rw [← h.2]
        exact trimCache_length_le 50 _ (by
          have := dictInsert_length_le w.fileCache p (mt, disk)
          omega)
    · simp only [Option.some.injEq, Prod.mk.injEq] at h
      rw [← h.2]
      exact trimCache_length_le 50 _ (by
        have := dictInsert_length_le w.fileCache p (mt, disk)
        omega)

theorem replaceIncl_cache_le (fs : FS) (base : String) (w : WState)
    (g1 : List Char) (g2 : Option (List Char)) (hw : w.fileCache.length ≤ 50) :
    (replaceIncl fs base w g1 g2).2.fileCache.length ≤ 50 := by
  unfold replaceIncl
  cases g2
  all_goals
    dsimp only
    split
    · exact hw
    · split
      · exact hw
      · split
        · exact hw
        · next content w1 heq =>
          exact readFileCached_cache_le fs w _ content w1 heq hw

theorem inclSubAux_cache_le (fs : FS) (base : String) : ∀ (n : Nat) (w : WState)
    (l : List Char), w.fileCache.length ≤ 50 →
    (inclSubAux fs base n w l).2.fileCache.length ≤ 50 := by
  intro n
  induction n with
  | zero => intro w l hw; exact hw
  | succ n2 ih =>
    intro w l hw
    cases l with
    | nil => rw [inclSubAux_nil]; exact hw
    | cons c cs =>
      cases hm : matchIncl (c :: cs) with
      | none =>
        rw [inclSubAux_none fs base n2 w c cs hm]
        exact ih w cs hw
      | some g =>
        obtain ⟨⟨g1, g2⟩, rest⟩ := g
        rw [inclSubAux_step fs base n2 w c cs g1 g2 rest hm]
        exact ih _ rest (replaceIncl_cache_le fs base w g1 g2 hw)

theorem processInclusions_cache_le (fs : FS) (base : String) (w : WState)
    (text : String) (hw : w.fileCache.length ≤ 50) :
    (processInclusions fs base w text).2.fileCache.length ≤ 50 := by
  unfold processInclusions
  exact inclSubAux_cache_le fs base _ w text.data hw

theorem convert_hit (backend : String → Bool → Bool → String) (fs : FS) (base : String)
    (s : MPState) (text : String) (wl lx : Bool) (th : String × String)
    (hinc : s.incEnabled = true)
    (hl : s.lastHash = some (hashContent text wl lx))
    (hdl : dictLookup s.contentCache (hashContent text wl lx) = some th) :
    convert backend fs base s text wl lx false = (th.2, s) := by
  unfold convert
  simp [hinc, hl, hdl]

theorem convert_forced (backend : String → Bool → Bool → String) (fs : FS) (base : String)
    (s : MPState) (text : String) (wl lx : Bool) :
    convert backend fs base s text wl lx true
      = convertCompute backend fs base s text wl lx := by
  unfold convert
  simp

theorem convert_not_last (backend : String → Bool → Bool → String) (fs : FS) (base : String)
    (s : MPState) (text : String) (wl lx force : Bool)
    (hl : s.lastHash ≠ some (hashContent text wl lx)) :
    convert backend fs base s text wl lx force
      = convertCompute backend fs base s text wl lx := by
  unfold convert
  simp [hl]

theorem convert_absent (backend : String → Bool → Bool → String) (fs : FS) (base : String)
    (s : MPState) (text : String) (wl lx force : Bool)
    (hdl : dictLookup s.contentCache (hashContent text wl lx) = none) :
    convert backend fs base s text wl lx force
      = convertCompute backend fs base s text wl lx := by
  unfold convert
  by_cases hc : force = false ∧ s.incEnabled = true ∧ s.lastHash = some (hashContent text wl lx)
  · simp [hc, hdl]
  · simp [hc]

theorem convertCompute_lookup (backend : String → Bool → Bool → String) (fs : FS)
    (base : String) (s : MPState) (text : String) (wl lx : Bool)
    (hlen : s.contentCache.length ≤ 10) :
    dictLookup (convertCompute backend fs base s text wl lx).2.contentCache
        (hashContent text wl lx)
      = some ((if wl then processInclusions fs base { s.w with includedFiles := [] } text
                else (text, { s.w with includedFiles := [] })).1,
              (convertCompute backend fs base s text wl lx).1) := by
  unfold convertCompute
  cases hdl : dictLookup s.contentCache (hashContent text wl lx) with
  | some th =>
    have hpres : (dictLookup s.contentCache (hashContent text wl lx)).isSome := by
      rw [hdl]; rfl
    simp only
    rw [trimCache_id 10 _ (by
      rw [dictInsert_length_of_present _ _ _ hpres]
      exact hlen)]
    rw [dictLookup_insert_self]
  | none =>
    simp only
    rw [dictInsert_of_absent _ _ _ hdl]
    rw [trimCache_lookup_fresh 10 _ _ _ (by omega) hdl hlen]

theorem convert_after_compute (backend : String → Bool → Bool → String) (fs : FS)
    (base : String) (s : MPState) (text : String) (wl lx : Bool)
    (hinc : s.incEnabled = true) (hlen : s.contentCache.length ≤ 10) :
    convert backend fs base (convertCompute backend fs base s text wl lx).2 text wl lx false
      = ((convertCompute backend fs base s text wl lx).1,
         (convertCompute backend fs base s text wl lx).2) := by
  have hl : (convertCompute backend fs base s text wl lx).2.lastHash
      = some (hashContent text wl lx) := rfl
  have hinc2 : (convertCompute backend fs base s text wl lx).2.incEnabled = true := hinc
  have hdl := convertCompute_lookup backend fs base s text wl lx hlen
  rw [convert_hit backend fs base _ text wl lx _ hinc2 hl hdl]

theorem convert_twice (backend : String → Bool → Bool → String) (fs : FS) (base : String)
    (s : MPState) (text : String) (wl lx : Bool)
    (hinc : s.incEnabled = true) (hlen : s.contentCache.length ≤ 10) :
    convert backend fs base
        ((convert backend fs base s text wl lx false).2) text wl lx false
      = convert backend fs base s text wl lx false := by
  by_cases hl : s.lastHash = some (hashContent text wl lx)
  · cases hdl : dictLookup s.contentCache (hashContent text wl lx) with
    | some th =>
      have h1 := convert_hit backend fs base s text wl lx th hinc hl hdl
      rw [h1]
      exact h1
    | none =>
      rw [convert_absent backend fs base s text wl lx false hdl,
        convert_after_compute backend fs base s text wl lx hinc hlen]
  · rw [convert_not_last backend fs base s text wl lx false hl,
      convert_after_compute backend fs base s text wl lx hinc hlen]

theorem convert_cases (backend : String → Bool → Bool → String) (fs : FS) (base : String)
    (s : MPState) (text : String) (wl lx force : Bool) :
    (convert backend fs base s text wl lx force).2 = s ∨
    convert backend fs base s text wl lx force
      = convertCompute backend fs base s text wl lx := by
  unfold convert
  by_cases hc : force = false ∧ s.incEnabled = true
      ∧ s.lastHash = some (hashContent text wl lx)
  · cases hdl : dictLookup s.contentCache (hashContent text wl lx) with
    | some th =>
      left
      simp [hc, hdl]
    | none =>
      right
      simp [hc, hdl]
  · right
    simp [hc]

theorem convertCompute_cache10 (backend : String → Bool → Bool → String) (fs : FS)
    (base : String) (s : MPState) (text : String) (wl lx : Bool)
    (hlen : s.contentCache.length ≤ 10) :
    (convertCompute backend fs base s text wl lx).2.contentCache.length ≤ 10 := by
  unfold convertCompute
  simp only
  refine trimCache_length_le 10 _ ?_
  exact le_trans (dictInsert_length_le _ _ _) (by omega)

theorem convertCompute_cache50 (backend : String → Bool → Bool → String) (fs : FS)
    (base : String) (s : MPState) (text : String) (wl lx : Bool)
    (h50 : s.w.fileCache.length ≤ 50) :
    (convertCompute backend fs base s text wl lx).2.w.fileCache.length ≤ 50 := by
  unfold convertCompute
  cases wl with
  | true =>
    simp only [if_pos rfl]
    exact processInclusions_cache_le fs base _ text h50
  | false =>
    simp
    exact h50

theorem convert_cache10 (backend : String → Bool → Bool → String) (fs : FS)
    (base : String) (s : MPState) (text : String) (wl lx force : Bool)
    (hlen : s.contentCache.length ≤ 10) :
    (convert backend fs base s text wl lx force).2.contentCache.length ≤ 10 := by
  rcases convert_cases backend fs base s text wl lx force with h | h
  · rw [h]
    exact hlen
  · rw [h]
    exact convertCompute_cache10 backend fs base s text wl lx hlen

theorem convert_cache50 (backend : String → Bool → Bool → String) (fs : FS)
    (base : String) (s : MPState) (text : String) (wl lx force : Bool)
    (h50 : s.w.fileCache.length ≤ 50) :
    (convert backend fs base s text wl lx force).2.w.fileCache.length ≤ 50 := by
  rcases convert_cases backend fs base s text wl lx force with h | h
  · rw [h]
    exact h50
  · rw [h]
    exact convertCompute_cache50 backend fs base s text wl lx h50


theorem trimInsert_lookup {α : Type} (cap : Nat) (d : List (String × α)) (k : String)
    (v : α) (hcap : 0 < cap) (hlen : d.length ≤ cap) :
    dictLookup (trimCache cap (dictInsert d k v)) k = some v := by
  cases hdl : dictLookup d k with
  | some th =>
    rw [trimCache_id cap _ (by
      rw [dictInsert_length_of_present _ _ _ (by rw [hdl]; rfl)]
      exact hlen)]
    exact dictLookup_insert_self d k v
  | none =>
    rw [dictInsert_of_absent _ _ _ hdl]
    exact trimCache_lookup_fresh cap _ _ _ hcap hdl hlen

/-! ## Claim theorems -/

set_option maxRecDepth 100000 in
/-- C1 (counterexample): with `A.md` containing `[[!B]]` and `B.md`
containing `[[!A]]`, a full top-level render of A's text produces HTML
that does NOT contain a "Circular inclusion detected" marker: the
inclusion pass is non-recursive, so the inner reference to A inside B's
spliced content is never processed and no circular-inclusion error is
emitted, contrary to the claim. -/
theorem C1_cycle_no_marker_counterexample :
    hasSubstr (("Circular inclusion detected").data)
      ((convert backendId fsCycle ("b") initMP (("[[!B]]")) true true false).1.data)
      = false := by
  decide

set_option maxRecDepth 100000 in
/-- C1 (amended): rendering A's text in the A↔B cycle terminates after
expanding exactly one level: B's content is spliced in verbatim — the
inner `[[!A]]` marker is still literally present in the inclusion-pass
output, unexpanded and without any inclusion-error marker; only B's
path enters the guard set and exactly one file read happens. -/
theorem C1_cycle_one_level :
    processInclusions fsCycle ("b") initW (("[[!B]]"))
        = (inclusionWrap ("B") (("[[!A]]")),
           ⟨[("b/B.md")], [(("b/B.md"), (2, ("[[!A]]")))], 0, 1⟩)
      ∧ hasSubstr (("[[!A]]").data)
          ((processInclusions fsCycle ("b") initW (("[[!B]]"))).1.data) = true := by
  refine ⟨by decide, by decide⟩

set_option maxRecDepth 100000 in
/-- C2 (counterexample): after converting text `ta` and then text `tb`,
the cache key of `ta` is still present in the document cache, yet a
third convert of `ta` (force unset) is not served from the cache: the
conversion backend runs again and the processor state changes, because
a hit additionally requires the key to equal `_last_hash`, which now
belongs to `tb`. -/
theorem C2_stale_key_counterexample :
    (dictLookup stateAB.contentCache (hashContent ("ta") false false)).isSome = true
      ∧ (convert backendId [] ("b") stateAB ("ta") false false false).2.backendCalls
          = stateAB.backendCalls + 1
      ∧ (convert backendId [] ("b") stateAB ("ta") false false false).2 ≠ stateAB := by
  refine ⟨by decide, by decide, by decide⟩

/-- C2 (amended): a cache hit requires force unset, incremental
rendering enabled, AND the key to both equal `_last_hash` and be
present in the document cache; under those conditions convert returns
the stored HTML with the entire processor state (resolver state,
backend/post-processor counters) untouched.  In particular, converting
the same (text, flags) pair twice in immediate succession yields the
identical HTML and state: the second call is a pure cache hit. -/
theorem C2_cache_hit_conditions :
    (∀ (backend : String → Bool → Bool → String) (fs : FS) (base : String)
        (s : MPState) (text : String) (wl lx : Bool) (th : String × String),
      s.incEnabled = true →
      s.lastHash = some (hashContent text wl lx) →
      dictLookup s.contentCache (hashContent text wl lx) = some th →
      convert backend fs base s text wl lx false = (th.2, s)) ∧
    (∀ (backend : String → Bool → Bool → String) (fs : FS) (base : String)
        (s : MPState) (text : String) (wl lx : Bool),
      s.incEnabled = true → s.contentCache.length ≤ 10 →
      convert backend fs base
          ((convert backend fs base s text wl lx false).2) text wl lx false
        = convert backend fs base s text wl lx false) :=
  ⟨convert_hit, convert_twice⟩

set_option maxRecDepth 100000 in
theorem C2_cache_hit_witness :
    convert backendId [] ("b")
        ((convert backendId [] ("b") initMP ("w") false false false).2)
        ("w") false false false
      = convert backendId [] ("b") initMP ("w") false false false :=
  C2_cache_hit_conditions.2 backendId [] ("b") initMP ("w") false false
    (by decide) (by decide)

set_option maxRecDepth 100000 in
/-- C3 (counterexample): with both a plain file `note` and `note.md`
present under the base directory, resolution returns `note.md`, not the
exact name `note` that the claimed order (exact first) would pick: the
code tries `.md` before `.markdown` before the exact name. -/
theorem C3_order_counterexample :
    (fsLookup fsBoth (joinPath ("b") ("note") (""))).isSome = true
      ∧ resolveFilePath fsBoth ("b") ("note") = some (joinPath ("b") ("note") (".md"))
      ∧ joinPath ("b") ("note") (".md") ≠ joinPath ("b") ("note") ("") := by
  refine ⟨by decide, by decide, by decide⟩

/-- C3 (amended): path resolution tries `T.md`, then `T.markdown`, then
the exact name `T` under the base directory, in that order, and the
first existing regular file wins; when none of the three exists, the
`[[!T]]` marker is replaced by an inline "File not found" error marker
containing the literal target name and the rest of the document is
rendered unchanged. -/
theorem C3_resolution_order :
    (∀ (fs : FS) (base T : String),
      (fsLookup fs (joinPath base T (".md"))).isSome →
      resolveFilePath fs base T = some (joinPath base T (".md"))) ∧
    (∀ (fs : FS) (base T : String),
      fsLookup fs (joinPath base T (".md")) = none →
      (fsLookup fs (joinPath base T (".markdown"))).isSome →
      resolveFilePath fs base T = some (joinPath base T (".markdown"))) ∧
    (∀ (fs : FS) (base T : String),
      fsLookup fs (joinPath base T (".md")) = none →
      fsLookup fs (joinPath base T (".markdown")) = none →
      (fsLookup fs (joinPath base T (""))).isSome →
      resolveFilePath fs base T = some (joinPath base T (""))) ∧
    (∀ (fs : FS) (base T : String),
      fsLookup fs (joinPath base T (".md")) = none →
      fsLookup fs (joinPath base T (".markdown")) = none →
      fsLookup fs (joinPath base T ("")) = none →
      resolveFilePath fs base T = none) ∧
    (∀ (fs : FS) (base : String) (w : WState) (rest : String),
      resolveFilePath fs base ("miss") = none → (∀ c ∈ rest.data, c ≠ '[') →
      processInclusions fs base w (("[[!miss]]") ++ rest)
        = (formatInclusionError ("miss") ("File not found") ++ rest, w)) := by
  refine ⟨?_, ?_, ?_, ?_, ?_⟩
  · intro fs base T h
    simp [resolveFilePath, h]
  · intro fs base T h1 h2
    simp [resolveFilePath, h1, h2]
  · intro fs base T h1 h2 h3
    simp [resolveFilePath, h1, h2, h3]
  · intro fs base T h1 h2 h3
    simp [resolveFilePath, h1, h2, h3]
  · intro fs base w rest hres hrest
    have hd : ((("[[!miss]]") ++ rest)).data = ("[[!miss]]").data ++ rest.data :=
      String.data_append _ _
    unfold processInclusions
    rw [hd, inclSubAux_start_match _ _ _ _ _ _ _ (matchIncl_miss rest.data),
      replIncl_miss fs base w hres, inclSubAux_id fs base rest.data w hrest]
    dsimp only
    rw [mk_append2]

set_option maxRecDepth 100000 in
theorem C3_resolution_order_witness :
    resolveFilePath fsBoth ("b") ("note") = some (joinPath ("b") ("note") (".md")) :=
  C3_resolution_order.1 fsBoth ("b") ("note") (by decide)

/-- C4: a new update always overwrites the single pending update; after
a burst of three updates within one quiet window, the expiry of either
cancelled timer is a no-op, and the expiry of the live timer performs
exactly one render, with U3's payload, delivering exactly one new
message to every subscriber inbox and clearing the pending slot. -/
theorem C4_debounce_coalescing :
    (∀ (s : CoordState) (u : Payload), (queueUpdate s u).pending = some u) ∧
    (∀ (s : CoordState) (u1 u2 u3 : Payload),
      fireTimer (queueUpdate (queueUpdate (queueUpdate s u1) u2) u3) s.nextTimer
        = queueUpdate (queueUpdate (queueUpdate s u1) u2) u3 ∧
      fireTimer (queueUpdate (queueUpdate (queueUpdate s u1) u2) u3) (s.nextTimer + 1)
        = queueUpdate (queueUpdate (queueUpdate s u1) u2) u3 ∧
      fireTimer (queueUpdate (queueUpdate (queueUpdate s u1) u2) u3) (s.nextTimer + 2)
        = { pending := none
            liveTimer := none
            nextTimer := s.nextTimer + 3
            renders := s.renders ++ [u3]
            inboxes := s.inboxes.map (fun ib => ib ++ [u3]) }) := by
  refine ⟨fun s u => rfl, ?_⟩
  intro s u1 u2 u3
  have h0 : s.nextTimer + 2 ≠ s.nextTimer := by omega
  have h1 : s.nextTimer + 2 ≠ s.nextTimer + 1 := by omega
  refine ⟨?_, ?_, ?_⟩
  · have h2 : ¬ (s.nextTimer + 1 + 1 = s.nextTimer) := by omega
    simp [fireTimer, queueUpdate, h2]
  · have h2 : ¬ (s.nextTimer + 1 + 1 = s.nextTimer + 1) := by omega
    simp [fireTimer, queueUpdate, h2]
  · simp [fireTimer, queueUpdate]

set_option maxRecDepth 100000 in
/-- C5: the document cache never exceeds 10 entries across any convert,
the inclusion file cache never exceeds 50 entries across any convert,
and inserting 11 distinct (text, flags) pairs into a fresh processor
leaves exactly the last 10 keys, in insertion order — the oldest entry
is the one evicted. -/
theorem C5_cache_bounds :
    (∀ (backend : String → Bool → Bool → String) (fs : FS) (base : String)
        (s : MPState) (text : String) (wl lx force : Bool),
      s.contentCache.length ≤ 10 →
      (convert backend fs base s text wl lx force).2.contentCache.length ≤ 10) ∧
    (∀ (backend : String → Bool → Bool → String) (fs : FS) (base : String)
        (s : MPState) (text : String) (wl lx force : Bool),
      s.w.fileCache.length ≤ 50 →
      (convert backend fs base s text wl lx force).2.w.fileCache.length ≤ 50) ∧
    (insertMany elevenTexts initMP).contentCache.map Prod.fst
        = (elevenTexts.drop 1).map (fun t => hashContent t false false) ∧
    (insertMany elevenTexts initMP).contentCache.length = 10 := by
  refine ⟨convert_cache10, convert_cache50, by decide, by decide⟩

set_option maxRecDepth 100000 in
theorem C5_cache_bounds_witness :
    (convert backendId [] ("b") initMP ("x") false false false).2.contentCache.length
      ≤ 10 :=
  C5_cache_bounds.1 backendId [] ("b") initMP ("x") false false false (by decide)

/-- C6: if the cached modification time of an included file equals the
current on-disk mtime, the cached content is returned and the hit
counter increments (cache otherwise untouched); if the on-disk mtime
differs from the cached one, the content is re-read from storage and
returned, the miss counter increments, and the cache entry is refreshed
to the new (mtime, content). -/
theorem C6_file_cache_coherency :
    (∀ (fs : FS) (w : WState) (p : String) (mt : Nat) (disk cc : String),
      fsLookup fs p = some (mt, disk) →
      dictLookup w.fileCache p = some (mt, cc) →
      readFileCached fs w p = some (cc, { w with cacheHits := w.cacheHits + 1 })) ∧
    (∀ (fs : FS) (w : WState) (p : String) (mt cm : Nat) (disk cc : String),
      fsLookup fs p = some (mt, disk) →
      dictLookup w.fileCache p = some (cm, cc) →
      cm ≠ mt → w.fileCache.length ≤ 50 →
      readFileCached fs w p
          = some (disk, { w with
              cacheMisses := w.cacheMisses + 1,
              fileCache := trimCache 50 (dictInsert w.fileCache p (mt, disk)) }) ∧
        dictLookup (trimCache 50 (dictInsert w.fileCache p (mt, disk))) p
          = some (mt, disk)) := by
  constructor
  · intro fs w p mt disk cc h1 h2
    simp [readFileCached, h1, h2]
  · intro fs w p mt cm disk cc h1 h2 h3 h4
    constructor
    · simp [readFileCached, h1, h2, h3]
    · exact trimInsert_lookup 50 w.fileCache p (mt, disk) (by omega) h4

set_option maxRecDepth 100000 in
theorem C6_file_cache_coherency_witness :
    readFileCached [(("p"), (1, ("c")))] ⟨[], [(("p"), (1, ("c")))], 0, 0⟩ ("p")
      = some (("c"), { (⟨[], [(("p"), (1, ("c")))], 0, 0⟩ : WState) with
          cacheHits := (⟨[], [(("p"), (1, ("c")))], 0, 0⟩ : WState).cacheHits + 1 }) :=
  C6_file_cache_coherency.1 [(("p"), (1, ("c")))] ⟨[], [(("p"), (1, ("c")))], 0, 0⟩
    ("p") 1 ("c") ("c") (by decide) (by decide)

set_option maxRecDepth 100000 in
/-- C7: the structured tag `<x-wikilink data-target="T">TEXT</x-wikilink>`
and the raw bracket forms `[[T]]` and `[[T|TEXT]]` are each rewritten to
the anchor `<a href="wiki:T" class="wiki-link" data-target="T">TEXT</a>`,
with TEXT defaulting to T when omitted (for well-formed targets and
texts: nonempty, free of the pattern delimiters, and — for the bracket
forms, whose groups are stripped — without surrounding whitespace); in
particular `[[Home|Go Home]]` and `[[Home]]` yield the stated anchors. -/
theorem C7_wikilink_rewrite :
    (∀ T TEXT : String, T.data ≠ [] → TEXT.data ≠ [] →
      (∀ c ∈ T.data, c ≠ '"' ∧ c ≠ '[') →
      (∀ c ∈ TEXT.data, c ≠ '<' ∧ c ≠ '[') →
      processWikilinkHtml (xwikiTag T TEXT) = anchorHtml T TEXT) ∧
    (∀ T TEXT : String, T.data ≠ [] → TEXT.data ≠ [] →
      pyStrip T = T → pyStrip TEXT = TEXT →
      (∀ c ∈ T.data, c ≠ ']' ∧ c ≠ '|' ∧ c ≠ '<') →
      (∀ c ∈ TEXT.data, c ≠ ']' ∧ c ≠ '<') →
      processWikilinkHtml (brktTitled T TEXT) = anchorHtml T TEXT) ∧
    (∀ T : String, T.data ≠ [] → pyStrip T = T →
      (∀ c ∈ T.data, c ≠ ']' ∧ c ≠ '|' ∧ c ≠ '<') →
      processWikilinkHtml (brktPlain T) = anchorHtml T T) ∧
    processWikilinkHtml (("[[Home|Go Home]]"))
      = ("<a href=\"wiki:Home\" class=\"wiki-link\" data-target=\"Home\">Go Home</a>") ∧
    processWikilinkHtml (("[[Home]]"))
      = ("<a href=\"wiki:Home\" class=\"wiki-link\" data-target=\"Home\">Home</a>") := by
  refine ⟨processWikilinkHtml_structured, ?_, ?_, by decide, by decide⟩
  · intro T TEXT hT hX hsT hsX hTc hXc
    rw [processWikilinkHtml_titled T TEXT hT hX hTc hXc, hsT, hsX]
  · intro T hT hsT hTc
    rw [processWikilinkHtml_plain T hT hTc, hsT]

set_option maxRecDepth 100000 in
theorem C7_wikilink_rewrite_witness :
    processWikilinkHtml (xwikiTag ("Home") ("Go Home"))
      = anchorHtml ("Home") ("Go Home") :=
  C7_wikilink_rewrite.1 ("Home") ("Go Home") (by decide) (by decide)
    (by decide) (by decide)

set_option maxRecDepth 100000 in
/-- C8: LaTeX post-processing maps `<x-equation type="display">EXPR</x-equation>`
to `$$EXPR$$` and `<x-equation>EXPR</x-equation>` to `$EXPR$` (for EXPR
free of `<`, as emitted by the backend); in particular the `x^2` tags
render to `$$x^2$$` and `$x^2$`. -/
theorem C8_latex_rewrite :
    (∀ EXPR : String, (∀ c ∈ EXPR.data, c ≠ '<') →
      latexProcess (dispTag EXPR) = ("$$") ++ EXPR ++ ("$$")) ∧
    (∀ EXPR : String, (∀ c ∈ EXPR.data, c ≠ '<') →
      latexProcess (inlineTag EXPR) = ("$") ++ EXPR ++ ("$")) ∧
    latexProcess (("<x-equation type=\"display\">x^2</x-equation>")) = ("$$x^2$$") ∧
    latexProcess (("<x-equation>x^2</x-equation>")) = ("$x^2$") := by
  refine ⟨?_, ?_, ?_, ?_⟩
  · intro EXPR hE
    unfold latexProcess
    rw [reSubDisp_marker EXPR hE]
    exact reSub_id matchInline '<' matchInline_ne _
      (forall_ne_append '<' _ _ (forall_ne_append '<' _ _ (by decide) hE) (by decide))
  · intro EXPR hE
    unfold latexProcess
    rw [reSubDisp_inline_id EXPR hE]
    have hne : (inlineTag EXPR).data ≠ [] := by
      simp [inlineTag, String.data_append]
    rw [reSub_full_match matchInline _ _ (matchInline_marker EXPR hE) hne]
  · decide
  · decide

set_option maxRecDepth 100000 in
theorem C8_latex_rewrite_witness :
    latexProcess (dispTag ("x^2")) = ("$$") ++ ("x^2") ++ ("$$") :=
  C8_latex_rewrite.1 ("x^2") (by decide)

/-- C9: within one top-level render of a document whose own text holds
two `[[!doc]]` markers resolving to the same file, the first marker is
expanded with the file's content and the second is replaced by a
"Circular inclusion detected" error marker, even though no real cycle
exists: the guard set keeps the resolved path for the remainder of the
render, and only one read (miss) is performed. -/
theorem C9_duplicate_inclusion_guard (content : String) (mt : Nat) (mid : String)
    (hmid : ∀ c ∈ mid.data, c ≠ '[') :
    processInclusions [(("b/doc.md"), (mt, content))] ("b") initW
        (("[[!doc]]") ++ mid ++ ("[[!doc]]"))
      = (inclusionWrap ("doc") content ++ mid
           ++ formatInclusionError ("doc") ("Circular inclusion detected"),
         ⟨[("b/doc.md")], [(("b/doc.md"), (mt, content))], 0, 1⟩) := by
  have hd : ((("[[!doc]]") ++ mid ++ ("[[!doc]]"))).data
      = ("[[!doc]]").data ++ (mid.data ++ ("[[!doc]]").data) := by
    simp [String.data_append]
  have hm2 : matchIncl (("[[!doc]]").data) = some (((("doc").data), none), []) := by
    simpa using matchIncl_doc []
  unfold processInclusions
  rw [hd, inclSubAux_start_match _ _ _ _ _ _ _
      (matchIncl_doc (mid.data ++ ("[[!doc]]").data)),
    replIncl_first content mt, List.length_append,
    inclSubAux_skip _ _ mid.data (("[[!doc]]").data) _ _ hmid,
    inclSubAux_start_match _ _ _ _ _ _ _ hm2, replIncl_second content mt,
    inclSubAux_nil]
  simp [String.data_append, List.append_assoc]
  exact mk_append3 _ _ _

set_option maxRecDepth 100000 in
theorem C9_duplicate_inclusion_guard_witness :
    processInclusions [(("b/doc.md"), (7, ("HELLO")))] ("b") initW
        (("[[!doc]]") ++ (" ") ++ ("[[!doc]]"))
      = (inclusionWrap ("doc") ("HELLO") ++ (" ")
           ++ formatInclusionError ("doc") ("Circular inclusion detected"),
         ⟨[("b/doc.md")], [(("b/doc.md"), (7, ("HELLO")))], 0, 1⟩) :=
  C9_duplicate_inclusion_guard ("HELLO") 7 (" ") (by decide)

/-- C10: with the wikilinks flag false, convert touches neither the file
cache nor its counters and never invokes the wiki-link post-processor;
on the compute path the document text reaches the conversion backend
unchanged (no inclusion expansion, no error markers), and the result is
only the (flag-gated) LaTeX pass over the backend output. -/
theorem C10_wikilinks_disabled :
    (∀ (backend : String → Bool → Bool → String) (fs : FS) (base : String)
        (s : MPState) (text : String) (lx force : Bool),
      (convert backend fs base s text false lx force).2.w.fileCache = s.w.fileCache ∧
      (convert backend fs base s text false lx force).2.w.cacheHits = s.w.cacheHits ∧
      (convert backend fs base s text false lx force).2.w.cacheMisses
        = s.w.cacheMisses ∧
      (convert backend fs base s text false lx force).2.wikiPostCalls
        = s.wikiPostCalls) ∧
    (∀ (backend : String → Bool → Bool → String) (fs : FS) (base : String)
        (s : MPState) (text : String) (lx : Bool),
      (convert backend fs base s text false lx true).1
        = if lx then latexProcess (backend text false lx)
          else backend text false lx) := by
  constructor
  · intro backend fs base s text lx force
    rcases convert_cases backend fs base s text false lx force with h | h
    · rw [h]
      exact ⟨rfl, rfl, rfl, rfl⟩
    · rw [h]
      unfold convertCompute
      simp
  · intro backend fs base s text lx
    rw [convert_forced]
    unfold convertCompute
    simp

end MdPreview
